import Mathlib

/-!
# Karatsuba multiplication over GMP integers (`karatsuba_gmp.c`)

A shallow embedding of the two functions of `karatsuba_gmp.c`, `getSize` and
`karatsuba`, and the properties of them that the specification states.

Modelling conventions.

* `mpz_t` is an unbounded signed integer: `Int`.
* `mpz_tdiv_q` is `Int.tdiv` (quotient rounded towards zero), `mpz_fdiv_q` is
  `Int.fdiv` and `mpz_fdiv_r` is `Int.fmod` (quotient rounded towards minus
  infinity, remainder with the sign of the divisor), `mpz_ui_pow_ui` is `^`.
* `karatsuba` writes its answer through its first parameter `result`; the
  embedding takes the value `result` holds on entry and returns the value it
  holds on exit. The locals `ac`, `bd` and `abcd` are set to 0 by `mpz_init`
  before they are passed as `result` to the recursive calls.
* The counters `int count`, `unsigned long size` and `unsigned long n` are
  natural numbers: they are bounded by the number of decimal digits of the
  operands, so the machine width is never reached, and for the same reason
  `ceil(size/2.0)` is computed exactly by the `double` arithmetic.
-/

namespace Karatsuba

/-! ## Definitions: the digit counter and the split -/

/-- The `while` loop of `getSize`: as long as `quotient > 0`, increment `count`
and replace `quotient` by its truncated quotient by `divisor = 10`. -/
def getSizeLoop (count : Nat) (quotient : Int) : Nat :=
  if quotient > 0 then getSizeLoop (count + 1) (Int.tdiv quotient 10) else count
termination_by quotient.toNat
decreasing_by
  simp_wf
  rename_i h
  have h1 : Int.tdiv quotient 10 = quotient / 10 :=
    Int.tdiv_eq_ediv (le_of_lt h) (by decide)
  omega

/-- The function `getSize`: `count` starts at 0 and `quotient` at `num`. -/
def getSize (num : Int) : Nat :=
  getSizeLoop 0 num

/-- The value `ceil(size / 2.0)` converted back to `unsigned long`. -/
def ceilHalf (size : Nat) : Nat :=
  (size + 1) / 2

/-- The local `size` of `karatsuba`:
`(getSize(x) >= getSize(y)) ? getSize(x) : getSize(y)`. -/
def maxSize (x y : Int) : Nat :=
  if getSize x ≥ getSize y then getSize x else getSize y

/-- The local `n` of `karatsuba`, the split point. -/
def splitPoint (x y : Int) : Nat :=
  ceilHalf (maxSize x y)

/-- The local `power` of `karatsuba`: `base` raised to the power `n`. -/
def splitPower (x y : Int) : Int :=
  10 ^ splitPoint x y

/-- The measure under which the recursion of `karatsuba` is well founded: the
sum of the operands, a negative operand counting as 0. -/
def operandWeight (x y : Int) : Nat :=
  x.toNat + y.toNat

/-! ## The loop of the digit counter -/

theorem getSizeLoop_pos (count : Nat) (quotient : Int) (h : 0 < quotient) :
    getSizeLoop count quotient = getSizeLoop (count + 1) (quotient / 10) := by
  rw [getSizeLoop, if_pos h, Int.tdiv_eq_ediv (le_of_lt h) (by decide)]

theorem getSizeLoop_nonpos (count : Nat) (quotient : Int) (h : quotient ≤ 0) :
    getSizeLoop count quotient = count := by
  rw [getSizeLoop, if_neg (not_lt.mpr h)]

theorem getSizeLoop_ofNat (m : Nat) : ∀ count : Nat,
    getSizeLoop count (m : Int) = count + getSizeLoop 0 (m : Int) := by
  induction m using Nat.strong_induction_on with
  | _ m ih =>
    intro count
    rcases Nat.eq_zero_or_pos m with h0 | hpos
    · subst h0
      simp [getSizeLoop_nonpos]
    · have hq : (0 : Int) < (m : Int) := by exact_mod_cast hpos
      have hdiv : ((m : Int) / 10) = ((m / 10 : Nat) : Int) := by norm_cast
      rw [getSizeLoop_pos count _ hq, getSizeLoop_pos 0 _ hq, hdiv,
        ih (m / 10) (by omega) (count + 1), ih (m / 10) (by omega) (0 + 1)]
      omega

theorem getSize_nonpos (v : Int) (h : v ≤ 0) : getSize v = 0 :=
  getSizeLoop_nonpos 0 v h

theorem getSize_pos (v : Int) (h : 0 < v) : getSize v = getSize (v / 10) + 1 := by
  obtain ⟨m, rfl⟩ := Int.eq_ofNat_of_zero_le (le_of_lt h)
  have hdiv : ((m : Int) / 10) = ((m / 10 : Nat) : Int) := by norm_cast
  unfold getSize
  rw [getSizeLoop_pos 0 _ h, hdiv, getSizeLoop_ofNat (m / 10) (0 + 1)]
  omega


theorem getSize_ofNat_lt_pow (m : Nat) : m < 10 ^ getSize (m : Int) := by
  induction m using Nat.strong_induction_on with
  | _ m ih =>
    rcases Nat.eq_zero_or_pos m with h0 | hpos
    · subst h0
      simp
    · have hq : (0 : Int) < (m : Int) := by exact_mod_cast hpos
      have hdiv : ((m : Int) / 10) = ((m / 10 : Nat) : Int) := by norm_cast
      have h1 := ih (m / 10) (by omega)
      rw [getSize_pos _ hq, hdiv, pow_succ]
      omega

theorem getSize_ofNat_pow_le (m : Nat) (hpos : 0 < m) :
    10 ^ (getSize (m : Int) - 1) ≤ m := by
  induction m using Nat.strong_induction_on with
  | _ m ih =>
    have hq : (0 : Int) < (m : Int) := by exact_mod_cast hpos
    have hdiv : ((m : Int) / 10) = ((m / 10 : Nat) : Int) := by norm_cast
    rw [getSize_pos _ hq, hdiv, Nat.add_sub_cancel]
    rcases Nat.eq_zero_or_pos (m / 10) with h0 | hp
    · rw [h0]
      simp [getSize_nonpos]
      omega
    · have h1 := ih (m / 10) (by omega) hp
      have hq2 : (0 : Int) < ((m / 10 : Nat) : Int) := by exact_mod_cast hp
      have hdiv2 : (((m / 10 : Nat) : Int) / 10) = ((m / 10 / 10 : Nat) : Int) := by norm_cast
      rw [getSize_pos _ hq2, hdiv2, Nat.add_sub_cancel] at h1
      rw [getSize_pos _ hq2, hdiv2, pow_succ]
      omega

theorem getSize_lt_pow (v : Int) : v < 10 ^ getSize v := by
  rcases le_or_lt v 0 with h | h
  · rw [getSize_nonpos v h]
    simp
    omega
  · obtain ⟨m, rfl⟩ := Int.eq_ofNat_of_zero_le (le_of_lt h)
    exact_mod_cast getSize_ofNat_lt_pow m

theorem getSize_pow_le (v : Int) (h : 0 < v) : 10 ^ (getSize v - 1) ≤ v := by
  obtain ⟨m, rfl⟩ := Int.eq_ofNat_of_zero_le (le_of_lt h)
  exact_mod_cast getSize_ofNat_pow_le m (by exact_mod_cast h)

theorem getSize_ne_zero (v : Int) (h : 0 < v) : getSize v ≠ 0 := by
  rw [getSize_pos v h]
  omega

theorem getSize_eq_of_bounds (v : Int) (k : Nat) (hk : 1 ≤ k)
    (hlo : 10 ^ (k - 1) ≤ v) (hhi : v < 10 ^ k) : getSize v = k := by
  have hv : 0 < v := lt_of_lt_of_le (by positivity) hlo
  have h1 := getSize_lt_pow v
  have h2 := getSize_pow_le v hv
  have h3 := getSize_ne_zero v hv
  have ha : (10 : Int) ^ (k - 1) < 10 ^ getSize v := lt_of_le_of_lt hlo h1
  have hb : (10 : Int) ^ (getSize v - 1) < 10 ^ k := lt_of_le_of_lt h2 hhi
  have ha2 := (pow_lt_pow_iff_right₀ (by norm_num : (1 : Int) < 10)).mp ha
  have hb2 := (pow_lt_pow_iff_right₀ (by norm_num : (1 : Int) < 10)).mp hb
  omega

theorem getSize_le_of_lt_pow (v : Int) (k : Nat) (h : v < 10 ^ k) : getSize v ≤ k := by
  rcases le_or_lt v 0 with h0 | h0
  · rw [getSize_nonpos v h0]
    omega
  · have h2 := getSize_pow_le v h0
    have hb : (10 : Int) ^ (getSize v - 1) < 10 ^ k := lt_of_le_of_lt h2 h
    have hb2 := (pow_lt_pow_iff_right₀ (by norm_num : (1 : Int) < 10)).mp hb
    omega

/-! ## Splitting an operand at a power of the base -/

theorem fdiv_fmod_pos (x p : Int) (hp : 0 < p) :
    Int.fdiv x p = x / p ∧ Int.fmod x p = x % p :=
  ⟨Int.fdiv_eq_ediv x (le_of_lt hp), Int.fmod_eq_emod x (le_of_lt hp)⟩

theorem split_cases (x p : Int) (hp : 100 ≤ p) :
    (x < 0 ∧ x / p ≤ -1 ∧ 0 ≤ x % p ∧ x % p < p) ∨
    (0 ≤ x ∧ x < p ∧ x / p = 0 ∧ x % p = x) ∨
    (p ≤ x ∧ 1 ≤ x / p ∧ 0 ≤ x % p ∧ x % p < p ∧ x / p + x % p < x ∧
      x / p + x % p + p ≤ x + 1) := by
  have hp0 : 0 < p := by omega
  have hb0 : 0 ≤ x % p := Int.emod_nonneg x (by omega)
  have hb1 : x % p < p := Int.emod_lt_of_pos x hp0
  have hx : p * (x / p) + x % p = x := Int.ediv_add_emod x p
  rcases lt_or_le x 0 with h | h
  · left
    refine ⟨h, ?_, hb0, hb1⟩
    have : x / p < 0 := Int.ediv_neg' h hp0
    omega
  · rcases lt_or_le x p with h2 | h2
    · right; left
      exact ⟨h, h2, Int.ediv_eq_zero_of_lt h h2, Int.emod_eq_of_lt h h2⟩
    · right; right
      have ha : 1 ≤ x / p := by
        have := Int.ediv_le_ediv hp0 h2
        rwa [Int.ediv_self (by omega)] at this
      have hm : 0 ≤ (p - 1) * (x / p - 1) := mul_nonneg (by omega) (by omega)
      have hm2 : (p - 1) * (x / p - 1) = p * (x / p) - p - x / p + 1 := by ring
      refine ⟨h2, ha, hb0, hb1, ?_, ?_⟩ <;> omega

theorem splitPower_facts (x y : Int) (h : 2 ≤ splitPoint x y) :
    100 ≤ splitPower x y ∧ (splitPower x y ≤ x ∨ splitPower x y ≤ y) := by
  unfold splitPower
  constructor
  · calc (100 : Int) = 10 ^ 2 := by norm_num
      _ ≤ 10 ^ splitPoint x y := pow_le_pow_right₀ (by norm_num) h
  · have key : ∀ v : Int, 2 ≤ ceilHalf (getSize v) → (10 : Int) ^ ceilHalf (getSize v) ≤ v := by
      intro v hv
      unfold ceilHalf at hv ⊢
      have hpos : 0 < v := by
        by_contra hc
        rw [getSize_nonpos v (not_lt.mp hc)] at hv
        omega
      calc (10 : Int) ^ ((getSize v + 1) / 2) ≤ 10 ^ (getSize v - 1) :=
            pow_le_pow_right₀ (by norm_num) (by omega)
        _ ≤ v := getSize_pow_le v hpos
    unfold splitPoint maxSize at h ⊢
    split_ifs at h ⊢
    · exact Or.inl (key x h)
    · exact Or.inr (key y h)

theorem operandWeight_high (x y p : Int) (hp : 100 ≤ p) (h : p ≤ x ∨ p ≤ y) :
    operandWeight (x / p) (y / p) < operandWeight x y := by
  unfold operandWeight
  rcases split_cases x p hp with hx | hx | hx <;>
  rcases split_cases y p hp with hy | hy | hy <;> omega

theorem operandWeight_low (x y p : Int) (hp : 100 ≤ p) (h : p ≤ x ∨ p ≤ y) :
    operandWeight (x % p) (y % p) < operandWeight x y := by
  unfold operandWeight
  rcases split_cases x p hp with hx | hx | hx <;>
  rcases split_cases y p hp with hy | hy | hy <;> omega

theorem operandWeight_sum (x y p : Int) (hp : 100 ≤ p) (h : p ≤ x ∨ p ≤ y) :
    operandWeight (x / p + x % p) (y / p + y % p) < operandWeight x y := by
  unfold operandWeight
  rcases split_cases x p hp with hx | hx | hx <;>
  rcases split_cases y p hp with hy | hy | hy <;> omega

/-! ## Definition: the multiplier -/

/-- The function `karatsuba`. The argument `result` is the value the output
parameter holds on entry, the value returned is the one it holds on exit. The
test `n < 2` is written on `splitPoint x y`, the value of `n`, so that the
termination proof sees it. -/
def karatsuba (result x y : Int) : Int :=
  let n := splitPoint x y
  let power := splitPower x y
  let a := Int.fdiv x power
  let b := Int.fmod x power
  let c := Int.fdiv y power
  let d := Int.fmod y power
  if _hn : splitPoint x y < 2 then
    let mul_result := x * y
    result + mul_result
  else
    let ac := karatsuba 0 a c
    let bd := karatsuba 0 b d
    let sum_ab := a + b
    let sum_cd := c + d
    let abcd := karatsuba 0 sum_ab sum_cd
    let abcd := abcd - ac
    let abcd := abcd - bd
    let term1 : Int := 10 ^ (2 * n)
    let term3 := term1 * ac
    let term2 : Int := 10 ^ n
    let term4 := term2 * abcd
    let sum := term3 + term4
    sum + bd
termination_by operandWeight x y
decreasing_by
  all_goals
    have hf := splitPower_facts x y (Nat.le_of_not_lt (by assumption))
    have hx := fdiv_fmod_pos x (splitPower x y) (by omega)
    have hy := fdiv_fmod_pos y (splitPower x y) (by omega)
    simp only [hx.1, hx.2, hy.1, hy.2]
  · exact operandWeight_high x y _ hf.1 hf.2
  · exact operandWeight_low x y _ hf.1 hf.2
  · exact operandWeight_sum x y _ hf.1 hf.2


/-! ## One level of the multiplier -/

theorem karatsuba_unfold (result x y : Int) :
    karatsuba result x y =
      if splitPoint x y < 2 then result + x * y
      else
        10 ^ (2 * splitPoint x y) *
            karatsuba 0 (Int.fdiv x (splitPower x y)) (Int.fdiv y (splitPower x y)) +
          10 ^ splitPoint x y *
            (karatsuba 0 (Int.fdiv x (splitPower x y) + Int.fmod x (splitPower x y))
                (Int.fdiv y (splitPower x y) + Int.fmod y (splitPower x y)) -
              karatsuba 0 (Int.fdiv x (splitPower x y)) (Int.fdiv y (splitPower x y)) -
              karatsuba 0 (Int.fmod x (splitPower x y)) (Int.fmod y (splitPower x y))) +
          karatsuba 0 (Int.fmod x (splitPower x y)) (Int.fmod y (splitPower x y)) := by
  rw [karatsuba]
  split_ifs <;> rfl

theorem splitPower_pos (x y : Int) : 0 < splitPower x y := by
  unfold splitPower
  positivity

theorem fdiv_add_fmod (x p : Int) (hp : 0 < p) : Int.fdiv x p * p + Int.fmod x p = x := by
  rw [(fdiv_fmod_pos x p hp).1, (fdiv_fmod_pos x p hp).2, mul_comm]
  exact Int.ediv_add_emod x p

theorem recombine (a b c d : Int) (n : Nat) :
    10 ^ (2 * n) * (a * c) + 10 ^ n * ((a + b) * (c + d) - a * c - b * d) + b * d =
      (a * 10 ^ n + b) * (c * 10 ^ n + d) := by
  ring

theorem karatsuba_zero_of_weight (w : Nat) :
    ∀ x y : Int, operandWeight x y = w → karatsuba 0 x y = x * y := by
  induction w using Nat.strong_induction_on with
  | _ w ih =>
    intro x y hw
    rw [karatsuba_unfold]
    split_ifs with hn
    · simp
    · have hf := splitPower_facts x y (Nat.le_of_not_lt hn)
      have hp := splitPower_pos x y
      have hx := fdiv_fmod_pos x (splitPower x y) hp
      have hy := fdiv_fmod_pos y (splitPower x y) hp
      have h1 := operandWeight_high x y _ hf.1 hf.2
      have h2 := operandWeight_low x y _ hf.1 hf.2
      have h3 := operandWeight_sum x y _ hf.1 hf.2
      rw [← hx.1, ← hy.1] at h1 h3
      rw [← hx.2, ← hy.2] at h2 h3
      rw [ih _ (hw ▸ h1) _ _ rfl, ih _ (hw ▸ h3) _ _ rfl, ih _ (hw ▸ h2) _ _ rfl, recombine]
      have ex := fdiv_add_fmod x _ hp
      have ey := fdiv_add_fmod y _ hp
      unfold splitPower at ex ey
      unfold splitPower
      rw [ex, ey]

theorem karatsuba_zero (x y : Int) : karatsuba 0 x y = x * y :=
  karatsuba_zero_of_weight _ x y rfl

theorem karatsuba_value (result x y : Int) :
    karatsuba result x y = if splitPoint x y < 2 then result + x * y else x * y := by
  rw [karatsuba_unfold]
  split_ifs with hn
  · rfl
  · have hp := splitPower_pos x y
    rw [karatsuba_zero, karatsuba_zero, karatsuba_zero, recombine]
    have ex := fdiv_add_fmod x _ hp
    have ey := fdiv_add_fmod y _ hp
    unfold splitPower at ex ey
    unfold splitPower
    rw [ex, ey]

/-! ## The split point in terms of the operands -/

theorem getSize_le_iff (v : Int) (k : Nat) : getSize v ≤ k ↔ v < 10 ^ k := by
  constructor
  · intro h
    calc v < 10 ^ getSize v := getSize_lt_pow v
      _ ≤ 10 ^ k := pow_le_pow_right₀ (by norm_num) h
  · exact getSize_le_of_lt_pow v k

theorem maxSize_eq_max (x y : Int) : maxSize x y = max (getSize x) (getSize y) := by
  unfold maxSize
  split_ifs with h
  · exact (max_eq_left h).symm
  · exact (max_eq_right (le_of_lt (not_le.mp h))).symm

theorem maxSize_le_iff (x y : Int) (k : Nat) : maxSize x y ≤ k ↔ x < 10 ^ k ∧ y < 10 ^ k := by
  rw [maxSize_eq_max, max_le_iff, getSize_le_iff, getSize_le_iff]

theorem splitPoint_lt_two_iff (x y : Int) : splitPoint x y < 2 ↔ x < 100 ∧ y < 100 := by
  have h := maxSize_le_iff x y 2
  norm_num at h
  rw [← h]
  unfold splitPoint ceilHalf
  omega

theorem splitPoint_of_sizes (x y : Int) (sx sy : Nat) (hx : getSize x = sx)
    (hy : getSize y = sy) : splitPoint x y = (max sx sy + 1) / 2 := by
  unfold splitPoint ceilHalf
  rw [maxSize_eq_max, hx, hy]

/-! ## Bounds on the parts of a split -/

theorem lt_pow_maxSize (x y : Int) : x < 10 ^ maxSize x y ∧ y < 10 ^ maxSize x y :=
  (maxSize_le_iff x y (maxSize x y)).mp (le_refl _)

theorem maxSize_le_two_mul (x y : Int) : maxSize x y ≤ 2 * splitPoint x y := by
  unfold splitPoint ceilHalf
  omega

theorem lt_splitPower_sq (x y : Int) :
    x < splitPower x y * splitPower x y ∧ y < splitPower x y * splitPower x y := by
  have h := lt_pow_maxSize x y
  have hle : (10 : Int) ^ maxSize x y ≤ splitPower x y * splitPower x y := by
    unfold splitPower
    rw [← pow_add]
    exact pow_le_pow_right₀ (by norm_num) (by have := maxSize_le_two_mul x y; omega)
  exact ⟨lt_of_lt_of_le h.1 hle, lt_of_lt_of_le h.2 hle⟩

theorem parts_lt (x y : Int) :
    Int.fdiv x (splitPower x y) < 10 ^ splitPoint x y ∧
    Int.fmod x (splitPower x y) < 10 ^ splitPoint x y ∧
    Int.fdiv y (splitPower x y) < 10 ^ splitPoint x y ∧
    Int.fmod y (splitPower x y) < 10 ^ splitPoint x y := by
  have hp := splitPower_pos x y
  have hsq := lt_splitPower_sq x y
  rw [(fdiv_fmod_pos x _ hp).1, (fdiv_fmod_pos x _ hp).2, (fdiv_fmod_pos y _ hp).1,
    (fdiv_fmod_pos y _ hp).2]
  have hpow : (10 : Int) ^ splitPoint x y = splitPower x y := rfl
  rw [hpow]
  exact ⟨Int.ediv_lt_of_lt_mul hp hsq.1, Int.emod_lt_of_pos x hp,
    Int.ediv_lt_of_lt_mul hp hsq.2, Int.emod_lt_of_pos y hp⟩

theorem parts_nonneg (x p : Int) (hx : 0 ≤ x) (hp : 0 < p) :
    0 ≤ Int.fdiv x p ∧ 0 ≤ Int.fmod x p := by
  rw [(fdiv_fmod_pos x p hp).1, (fdiv_fmod_pos x p hp).2]
  exact ⟨Int.ediv_nonneg hx (le_of_lt hp), Int.emod_nonneg x (ne_of_gt hp)⟩

theorem splitPoint_le_of_lt (u v : Int) (k : Nat) (hu : u < 10 ^ k) (hv : v < 10 ^ k) :
    splitPoint u v ≤ (k + 1) / 2 := by
  have h := (maxSize_le_iff u v k).mpr ⟨hu, hv⟩
  unfold splitPoint ceilHalf
  omega

theorem sum_parts_lt (x y : Int) :
    Int.fdiv x (splitPower x y) + Int.fmod x (splitPower x y) < 10 ^ (splitPoint x y + 1) ∧
    Int.fdiv y (splitPower x y) + Int.fmod y (splitPower x y) < 10 ^ (splitPoint x y + 1) := by
  have h := parts_lt x y
  have hpos : (0 : Int) < 10 ^ splitPoint x y := by positivity
  rw [pow_succ]
  constructor <;> omega

/-! ## The rounding of the split point -/

theorem ceilHalf_eq_ceil (size : Nat) : ceilHalf size = ⌈((size : Nat) : ℚ) / 2⌉₊ := by
  have h1 : size ≤ 2 * ceilHalf size := by
    unfold ceilHalf
    omega
  have h2 : 2 * ceilHalf size ≤ size + 1 := by
    unfold ceilHalf
    omega
  apply le_antisymm
  · rcases Nat.eq_zero_or_pos (ceilHalf size) with h0 | hpos
    · omega
    · have hlt : ceilHalf size - 1 < ⌈((size : Nat) : ℚ) / 2⌉₊ := by
        rw [Nat.lt_ceil, lt_div_iff₀ (by norm_num)]
        have h3 : (ceilHalf size - 1) * 2 < size := by omega
        exact_mod_cast h3
      omega
  · rw [Nat.ceil_le, div_le_iff₀ (by norm_num)]
    have h3 : size ≤ ceilHalf size * 2 := by omega
    exact_mod_cast h3

/-! ## The test operands of `main` -/

/-- The first 64-digit test input given in the comment of `main`. -/
def testInputX : Int :=
  3141592653589793238462643383279502884197169399375105820974944592

/-- The second 64-digit test input given in the comment of `main`. -/
def testInputY : Int :=
  2718281828459045235360287471352662497757247093699959574966967627

/-! ## The properties of the specification -/

/-- C1: for all non-negative integers `x` and `y`, `karatsuba` called with
`result` initialised to 0 leaves `result` equal to the exact product `x * y`. -/
theorem karatsuba_exact_product (x y : Nat) :
    karatsuba 0 (x : Int) (y : Int) = (x : Int) * (y : Int) :=
  karatsuba_zero x y

/-- C2: for every non-negative integer `v`, `getSize v` is the number of decimal
digits of `v`, 0 having 0 digits: `getSize 0 = 0`, and for `v ≥ 1` it is the
unique `k ≥ 1` with `10^(k-1) ≤ v < 10^k`; it is the length of the list of
decimal digits of `v`; and `getSize` is 1, 2, 2, 3 at 9, 10, 99, 100. -/
theorem getSize_decimal_digits (v : Nat) :
    (v = 0 → getSize (v : Int) = 0) ∧
    (1 ≤ v →
      (1 ≤ getSize (v : Int) ∧ 10 ^ (getSize (v : Int) - 1) ≤ v ∧
        v < 10 ^ getSize (v : Int)) ∧
      ∀ k : Nat, 1 ≤ k → 10 ^ (k - 1) ≤ v → v < 10 ^ k → k = getSize (v : Int)) ∧
    getSize (v : Int) = (Nat.digits 10 v).length ∧
    getSize 9 = 1 ∧ getSize 10 = 2 ∧ getSize 99 = 2 ∧ getSize 100 = 3 := by
  have hval : ∀ (w : Int) (k : Nat), 1 ≤ k → 10 ^ (k - 1) ≤ w → w < 10 ^ k → getSize w = k :=
    getSize_eq_of_bounds
  refine ⟨?_, ?_, ?_, hval 9 1 (by norm_num) (by norm_num) (by norm_num),
    hval 10 2 (by norm_num) (by norm_num) (by norm_num),
    hval 99 2 (by norm_num) (by norm_num) (by norm_num),
    hval 100 3 (by norm_num) (by norm_num) (by norm_num)⟩
  · intro h0
    subst h0
    exact getSize_nonpos _ (le_refl _)
  · intro hv
    have hpos : (0 : Int) < (v : Int) := by exact_mod_cast hv
    refine ⟨⟨?_, getSize_ofNat_pow_le v hv, getSize_ofNat_lt_pow v⟩, ?_⟩
    · have := getSize_ne_zero _ hpos
      omega
    · intro k hk hlo hhi
      exact (hval v k hk (by exact_mod_cast hlo) (by exact_mod_cast hhi)).symm
  · rcases Nat.eq_zero_or_pos v with h0 | hv
    · subst h0
      simpa using getSize_nonpos 0 (le_refl _)
    · have hne : v ≠ 0 := by omega
      have hlen : 1 ≤ (Nat.digits 10 v).length := by
        have hnil : Nat.digits 10 v ≠ [] := Nat.digits_ne_nil_iff_ne_zero.mpr hne
        exact List.length_pos.mpr hnil
      have hhi : v < 10 ^ (Nat.digits 10 v).length := Nat.lt_base_pow_length_digits (by norm_num)
      have hlo : 10 ^ (Nat.digits 10 v).length ≤ 10 * v := Nat.base_pow_length_digits_le 10 v (by norm_num) hne
      have hlo2 : 10 ^ ((Nat.digits 10 v).length - 1) ≤ v := by
        obtain ⟨j, hj⟩ : ∃ j, (Nat.digits 10 v).length = j + 1 := ⟨_, (Nat.sub_add_cancel hlen).symm⟩
        rw [hj, pow_succ] at hlo
        rw [hj, Nat.add_sub_cancel]
        omega
      exact hval v _ hlen (by exact_mod_cast hlo2) (by exact_mod_cast hhi)

/-- Witness of C2 at `v = 100`: 100 is at least 1 and `getSize 100` is the 3 that
the bounds `10^2 ≤ 100 < 10^3` single out. -/
theorem getSize_decimal_digits_witness : 1 ≤ 100 ∧ 3 = getSize ((100 : Nat) : Int) :=
  ⟨by decide, ((getSize_decimal_digits 100).2.1 (by decide)).2 3 (by decide) (by decide)
    (by decide)⟩


/-- C3: for every pair of non-negative integers `x` and `y` the recursion of
`karatsuba` terminates: `karatsuba` is a total function that satisfies the
recursion of the code, and whenever it recurses (`n ≥ 2`) each of the three
calls, on `(a, c)`, `(b, d)` and `(a + b, c + d)`, is on arguments of strictly
smaller `operandWeight`, a measure into the natural numbers. -/
theorem karatsuba_terminates (x y : Nat) (result : Int) :
    (karatsuba result x y =
      if splitPoint x y < 2 then result + x * y
      else
        10 ^ (2 * splitPoint x y) *
            karatsuba 0 (Int.fdiv x (splitPower x y)) (Int.fdiv y (splitPower x y)) +
          10 ^ splitPoint x y *
            (karatsuba 0 (Int.fdiv x (splitPower x y) + Int.fmod x (splitPower x y))
                (Int.fdiv y (splitPower x y) + Int.fmod y (splitPower x y)) -
              karatsuba 0 (Int.fdiv x (splitPower x y)) (Int.fdiv y (splitPower x y)) -
              karatsuba 0 (Int.fmod x (splitPower x y)) (Int.fmod y (splitPower x y))) +
          karatsuba 0 (Int.fmod x (splitPower x y)) (Int.fmod y (splitPower x y))) ∧
    (¬ splitPoint x y < 2 →
      operandWeight (Int.fdiv x (splitPower x y)) (Int.fdiv y (splitPower x y)) <
          operandWeight x y ∧
        operandWeight (Int.fmod x (splitPower x y)) (Int.fmod y (splitPower x y)) <
          operandWeight x y ∧
        operandWeight (Int.fdiv x (splitPower x y) + Int.fmod x (splitPower x y))
            (Int.fdiv y (splitPower x y) + Int.fmod y (splitPower x y)) <
          operandWeight x y) := by
  refine ⟨karatsuba_unfold result x y, fun hn => ?_⟩
  have hf := splitPower_facts x y (Nat.le_of_not_lt hn)
  have hp := splitPower_pos x y
  rw [(fdiv_fmod_pos x _ hp).1, (fdiv_fmod_pos x _ hp).2, (fdiv_fmod_pos y _ hp).1,
    (fdiv_fmod_pos y _ hp).2]
  exact ⟨operandWeight_high _ _ _ hf.1 hf.2, operandWeight_low _ _ _ hf.1 hf.2,
    operandWeight_sum _ _ _ hf.1 hf.2⟩

/-- Witness of C3 at `x = 1234`, `y = 5678`, where `karatsuba` recurses: the
three calls are on operands of smaller weight. -/
theorem karatsuba_terminates_witness :
    ¬ splitPoint ((1234 : Nat) : Int) ((5678 : Nat) : Int) < 2 ∧
      operandWeight (Int.fdiv ((1234 : Nat) : Int) (splitPower ((1234 : Nat) : Int) ((5678 : Nat) : Int)))
          (Int.fdiv ((5678 : Nat) : Int) (splitPower ((1234 : Nat) : Int) ((5678 : Nat) : Int))) <
        operandWeight ((1234 : Nat) : Int) ((5678 : Nat) : Int) :=
  have hn : ¬ splitPoint ((1234 : Nat) : Int) ((5678 : Nat) : Int) < 2 := by
    rw [splitPoint_lt_two_iff]
    decide
  ⟨hn, ((karatsuba_terminates 1234 5678 0).2 hn).1⟩

/-- C4: zero absorption. For every non-negative integer `x`, `karatsuba` with
`result` initially 0 returns 0 on `(x, 0)` and on `(0, x)`; on `(0, 123456789)`
the zero operand has digit count 0, the split point is 5, so the call recurses,
and the result is 0. -/
theorem karatsuba_zero_absorption (x : Nat) :
    karatsuba 0 (x : Int) 0 = 0 ∧ karatsuba 0 0 (x : Int) = 0 ∧
    getSize 0 = 0 ∧ splitPoint 0 123456789 = 5 ∧ karatsuba 0 0 123456789 = 0 := by
  refine ⟨by rw [karatsuba_zero, mul_zero], by rw [karatsuba_zero, zero_mul],
    getSize_nonpos 0 (le_refl _), ?_, by rw [karatsuba_zero, zero_mul]⟩
  rw [splitPoint_of_sizes 0 123456789 0 9 (getSize_nonpos 0 (le_refl _))
    (getSize_eq_of_bounds _ _ (by norm_num) (by norm_num) (by norm_num))]
  rfl

/-- C5: commutativity. For all non-negative integers `x` and `y`, `karatsuba`
with `result` initially 0 returns the same value on `(x, y)` and on `(y, x)`. -/
theorem karatsuba_comm (x y : Nat) :
    karatsuba 0 (x : Int) (y : Int) = karatsuba 0 (y : Int) (x : Int) := by
  rw [karatsuba_zero, karatsuba_zero, mul_comm]

/-- C6: identity. For every non-negative integer `x`, `karatsuba` with `result`
initially 0 returns `x` on `(x, 1)`. -/
theorem karatsuba_mul_one (x : Nat) : karatsuba 0 (x : Int) 1 = (x : Int) := by
  rw [karatsuba_zero, mul_one]

/-- C7: the end-to-end scenarios, `result` initially 0: `12 * 34 = 408` by the
base case, `1234 * 5678 = 7006652` and `99999 * 99999 = 9999800001` by the
recursive case. -/
theorem karatsuba_scenarios :
    (splitPoint 12 34 < 2 ∧ karatsuba 0 12 34 = 408) ∧
    (¬ splitPoint 1234 5678 < 2 ∧ karatsuba 0 1234 5678 = 7006652) ∧
    (¬ splitPoint 99999 99999 < 2 ∧ karatsuba 0 99999 99999 = 9999800001) := by
  refine ⟨⟨?_, ?_⟩, ⟨?_, ?_⟩, ⟨?_, ?_⟩⟩
  · rw [splitPoint_lt_two_iff]
    decide
  · rw [karatsuba_zero]
    rfl
  · rw [splitPoint_lt_two_iff]
    decide
  · rw [karatsuba_zero]
    rfl
  · rw [splitPoint_lt_two_iff]
    decide
  · rw [karatsuba_zero]
    rfl


/-- C8, the claim as stated fails: on the two 64-digit test operands the value
`karatsuba` returns does not have 135 decimal digits. -/
theorem karatsuba_testInput_not_135_digits :
    ¬ (karatsuba 0 testInputX testInputY = testInputX * testInputY ∧
        getSize (karatsuba 0 testInputX testInputY) = 135) := by
  rintro ⟨-, h⟩
  have h127 : getSize (karatsuba 0 testInputX testInputY) = 127 := by
    rw [karatsuba_zero]
    exact getSize_eq_of_bounds _ _ (by norm_num) (by norm_num [testInputX, testInputY])
      (by norm_num [testInputX, testInputY])
  omega

/-- C8, amended: the two test operands have 64 decimal digits each, `karatsuba`
with `result` initially 0 returns their exact product, and that product is the
127-digit number written out here. -/
theorem karatsuba_testInput :
    getSize testInputX = 64 ∧ getSize testInputY = 64 ∧
    karatsuba 0 testInputX testInputY = testInputX * testInputY ∧
    karatsuba 0 testInputX testInputY =
      8539734222673567065463550869546574495034888535765114961879601127067743044893204848617875072216249073013374895871952806582723184 ∧
    getSize (karatsuba 0 testInputX testInputY) = 127 := by
  refine ⟨?_, ?_, karatsuba_zero _ _, ?_, ?_⟩
  · exact getSize_eq_of_bounds _ _ (by norm_num) (by norm_num [testInputX])
      (by norm_num [testInputX])
  · exact getSize_eq_of_bounds _ _ (by norm_num) (by norm_num [testInputY])
      (by norm_num [testInputY])
  · rw [karatsuba_zero]
    norm_num [testInputX, testInputY]
  · rw [karatsuba_zero]
    exact getSize_eq_of_bounds _ _ (by norm_num) (by norm_num [testInputX, testInputY])
      (by norm_num [testInputX, testInputY])

/-- C9: the split relation. For all non-negative `x` and `y`, `size` is the
maximum of the two digit counts, `n` is `size / 2` rounded up, `power` is
`10 ^ n`, the parts `a`, `b`, `c`, `d` that `karatsuba` computes are the
quotients and remainders of `x` and `y` by `10 ^ n`, and they satisfy
`x = a * 10^n + b`, `y = c * 10^n + d`, `a ≥ 0`, `c ≥ 0`, `0 ≤ b < 10^n` and
`0 ≤ d < 10^n`. -/
theorem karatsuba_split_relation (x y : Nat) :
    maxSize x y = max (getSize x) (getSize y) ∧
    splitPoint x y = ⌈((maxSize x y : Nat) : ℚ) / 2⌉₊ ∧
    splitPower x y = 10 ^ splitPoint x y ∧
    (Int.fdiv x (splitPower x y) = ((x / 10 ^ splitPoint x y : Nat) : Int) ∧
      Int.fmod x (splitPower x y) = ((x % 10 ^ splitPoint x y : Nat) : Int) ∧
      Int.fdiv y (splitPower x y) = ((y / 10 ^ splitPoint x y : Nat) : Int) ∧
      Int.fmod y (splitPower x y) = ((y % 10 ^ splitPoint x y : Nat) : Int)) ∧
    (x : Int) = Int.fdiv x (splitPower x y) * 10 ^ splitPoint x y +
      Int.fmod x (splitPower x y) ∧
    (y : Int) = Int.fdiv y (splitPower x y) * 10 ^ splitPoint x y +
      Int.fmod y (splitPower x y) ∧
    0 ≤ Int.fdiv x (splitPower x y) ∧ 0 ≤ Int.fdiv y (splitPower x y) ∧
    (0 ≤ Int.fmod x (splitPower x y) ∧
      Int.fmod x (splitPower x y) < 10 ^ splitPoint x y) ∧
    (0 ≤ Int.fmod y (splitPower x y) ∧
      Int.fmod y (splitPower x y) < 10 ^ splitPoint x y) := by
  have hp := splitPower_pos x y
  have hx := parts_nonneg x _ (Int.ofNat_nonneg x) hp
  have hy := parts_nonneg y _ (Int.ofNat_nonneg y) hp
  have hlt := parts_lt x y
  have hpow : splitPower x y = 10 ^ splitPoint x y := rfl
  have ex := fdiv_add_fmod x _ hp
  have ey := fdiv_add_fmod y _ hp
  refine ⟨maxSize_eq_max _ _, ?_, hpow, ⟨?_, ?_, ?_, ?_⟩, ?_, ?_, hx.1, hy.1,
    ⟨hx.2, hlt.2.1⟩, ⟨hy.2, hlt.2.2.2⟩⟩
  · exact ceilHalf_eq_ceil _
  · rw [(fdiv_fmod_pos _ _ hp).1, hpow]
    norm_cast
  · rw [(fdiv_fmod_pos _ _ hp).2, hpow]
    norm_cast
  · rw [(fdiv_fmod_pos _ _ hp).1, hpow]
    norm_cast
  · rw [(fdiv_fmod_pos _ _ hp).2, hpow]
    norm_cast
  · rw [← hpow]
    exact ex.symm
  · rw [← hpow]
    exact ey.symm


/-- C10, the claim as stated fails at `x = y = 999`: the split point is 2, the
call on `(a + b, c + d)` is on `(108, 108)`, whose split point is again 2, not
strictly smaller. -/
theorem splitPoint_sum_call_not_smaller :
    2 ≤ splitPoint 999 999 ∧
    Int.fdiv 999 (splitPower 999 999) + Int.fmod 999 (splitPower 999 999) = 108 ∧
    splitPoint 108 108 = splitPoint 999 999 ∧
    ¬ (splitPoint (Int.fdiv 999 (splitPower 999 999) + Int.fmod 999 (splitPower 999 999))
          (Int.fdiv 999 (splitPower 999 999) + Int.fmod 999 (splitPower 999 999)) <
        splitPoint 999 999) := by
  have h999 : splitPoint 999 999 = 2 := by
    rw [splitPoint_of_sizes 999 999 3 3
      (getSize_eq_of_bounds _ _ (by norm_num) (by norm_num) (by norm_num))
      (getSize_eq_of_bounds _ _ (by norm_num) (by norm_num) (by norm_num))]
    rfl
  have h108 : splitPoint 108 108 = 2 := by
    rw [splitPoint_of_sizes 108 108 3 3
      (getSize_eq_of_bounds _ _ (by norm_num) (by norm_num) (by norm_num))
      (getSize_eq_of_bounds _ _ (by norm_num) (by norm_num) (by norm_num))]
    rfl
  have hp : splitPower 999 999 = 100 := by
    unfold splitPower
    rw [h999]
    rfl
  have hsum : Int.fdiv 999 100 + Int.fmod 999 100 = 108 := by decide
  rw [hp, hsum, h108, h999]
  exact ⟨le_refl _, rfl, rfl, lt_irrefl 2⟩

/-- C10, amended: for all non-negative `x`, `y` for which `karatsuba` recurses
(`n ≥ 2`), the calls on `(a, c)` and on `(b, d)` compute a split point strictly
smaller than `n`; the call on `(a + b, c + d)` computes a split point that is at
most `n`, and strictly smaller than `n` when `n ≥ 3`. -/
theorem karatsuba_split_point_calls (x y : Nat) (h : 2 ≤ splitPoint x y) :
    splitPoint (Int.fdiv x (splitPower x y)) (Int.fdiv y (splitPower x y)) <
      splitPoint x y ∧
    splitPoint (Int.fmod x (splitPower x y)) (Int.fmod y (splitPower x y)) <
      splitPoint x y ∧
    splitPoint (Int.fdiv x (splitPower x y) + Int.fmod x (splitPower x y))
        (Int.fdiv y (splitPower x y) + Int.fmod y (splitPower x y)) ≤
      splitPoint x y ∧
    (3 ≤ splitPoint x y →
      splitPoint (Int.fdiv x (splitPower x y) + Int.fmod x (splitPower x y))
          (Int.fdiv y (splitPower x y) + Int.fmod y (splitPower x y)) <
        splitPoint x y) := by
  have hlt := parts_lt x y
  have hsum := sum_parts_lt x y
  have h1 := splitPoint_le_of_lt _ _ _ hlt.1 hlt.2.2.1
  have h2 := splitPoint_le_of_lt _ _ _ hlt.2.1 hlt.2.2.2
  have h3 := splitPoint_le_of_lt _ _ _ hsum.1 hsum.2
  refine ⟨?_, ?_, ?_, fun h3n => ?_⟩ <;> omega

/-- Witness of C10 amended at `x = 123456`, `y = 654321`: the call recurses and
the call on the high parts has a smaller split point. -/
theorem karatsuba_split_point_calls_witness :
    2 ≤ splitPoint ((123456 : Nat) : Int) ((654321 : Nat) : Int) ∧
    splitPoint
        (Int.fdiv ((123456 : Nat) : Int)
          (splitPower ((123456 : Nat) : Int) ((654321 : Nat) : Int)))
        (Int.fdiv ((654321 : Nat) : Int)
          (splitPower ((123456 : Nat) : Int) ((654321 : Nat) : Int))) <
      splitPoint ((123456 : Nat) : Int) ((654321 : Nat) : Int) :=
  have hn : 2 ≤ splitPoint ((123456 : Nat) : Int) ((654321 : Nat) : Int) :=
    Nat.le_of_not_lt (by rw [splitPoint_lt_two_iff]; decide)
  ⟨hn, (karatsuba_split_point_calls 123456 654321 hn).1⟩


/-! ## The recursion floor -/

theorem getSize_le_two_iff (v : Int) : getSize v ≤ 2 ↔ v < 100 := by
  have h := getSize_le_iff v 2
  norm_num at h
  exact h

theorem splitPoint_lt_two_iff_maxSize (x y : Int) : splitPoint x y < 2 ↔ maxSize x y ≤ 2 := by
  unfold splitPoint ceilHalf
  omega

/-- C11, the claim as stated fails in both directions: on `(12, 34)` the base
case is taken although both operands have two digits and neither is zero; on
`(0, 123456789)` one operand is zero and the recursive case is taken. -/
theorem base_case_not_single_digit_or_zero :
    (splitPoint 12 34 < 2 ∧
      ¬ ((getSize 12 ≤ 1 ∧ getSize 34 ≤ 1) ∨ (12 : Int) = 0 ∨ (34 : Int) = 0)) ∧
    (¬ splitPoint 0 123456789 < 2 ∧
      ((getSize 0 ≤ 1 ∧ getSize 123456789 ≤ 1) ∨ (0 : Int) = 0 ∨ (123456789 : Int) = 0)) := by
  have h12 : getSize 12 = 2 :=
    getSize_eq_of_bounds _ _ (by norm_num) (by norm_num) (by norm_num)
  refine ⟨⟨?_, ?_⟩, ?_, Or.inr (Or.inl rfl)⟩
  · rw [splitPoint_lt_two_iff]
    decide
  · rw [h12]
    decide
  · rw [splitPoint_lt_two_iff]
    decide

/-- C11, amended: for all non-negative `x`, `y`, `karatsuba` takes the base case
(`n < 2`, where it adds the primitive product `x * y` to `result` and does not
recurse) if and only if both operands have at most two decimal digits
(`getSize ≤ 2`); having at most one digit each is sufficient, a zero operand
alone is not. -/
theorem base_case_iff_at_most_two_digits (x y : Nat) (result : Int) :
    (splitPoint x y < 2 ↔ getSize x ≤ 2 ∧ getSize y ≤ 2) ∧
    (getSize x ≤ 1 ∧ getSize y ≤ 1 → splitPoint x y < 2) ∧
    (splitPoint x y < 2 → karatsuba result x y = result + x * y) := by
  have hiff : splitPoint x y < 2 ↔ getSize (x : Int) ≤ 2 ∧ getSize (y : Int) ≤ 2 := by
    rw [splitPoint_lt_two_iff, getSize_le_two_iff, getSize_le_two_iff]
  refine ⟨hiff, fun h => hiff.mpr ⟨by omega, by omega⟩, fun h => ?_⟩
  rw [karatsuba_value, if_pos h]

/-- C15: the recursion floor. For all non-negative `x`, `y`, with
`n = ceil(max(getSize x, getSize y) / 2)`, `karatsuba` takes the base case
(`n < 2`) if and only if `max x y < 100`, that is if and only if the maximum
digit count is at most 2; it recurses exactly when the maximum digit count is 3
or more. -/
theorem recursion_floor (x y : Nat) :
    splitPoint x y = ⌈((max (getSize x) (getSize y) : Nat) : ℚ) / 2⌉₊ ∧
    (splitPoint x y < 2 ↔ max x y < 100) ∧
    (splitPoint x y < 2 ↔ max (getSize x) (getSize y) ≤ 2) ∧
    (¬ splitPoint x y < 2 ↔ 3 ≤ max (getSize x) (getSize y)) := by
  have hmax : splitPoint x y < 2 ↔ max (getSize (x : Int)) (getSize (y : Int)) ≤ 2 := by
    rw [splitPoint_lt_two_iff_maxSize, maxSize_eq_max]
  refine ⟨?_, ?_, hmax, ?_⟩
  · rw [← maxSize_eq_max]
    exact ceilHalf_eq_ceil _
  · rw [splitPoint_lt_two_iff, max_lt_iff]
    constructor
    · rintro ⟨h1, h2⟩
      exact ⟨by exact_mod_cast h1, by exact_mod_cast h2⟩
    · rintro ⟨h1, h2⟩
      exact ⟨by exact_mod_cast h1, by exact_mod_cast h2⟩
  · rw [hmax]
    omega


/-! ## The recursive case -/

theorem karatsuba_recursive (result x y : Int) (h : 2 ≤ splitPoint x y) :
    karatsuba result x y =
      10 ^ (2 * splitPoint x y) *
          karatsuba 0 (Int.fdiv x (splitPower x y)) (Int.fdiv y (splitPower x y)) +
        10 ^ splitPoint x y *
          (karatsuba 0 (Int.fdiv x (splitPower x y) + Int.fmod x (splitPower x y))
              (Int.fdiv y (splitPower x y) + Int.fmod y (splitPower x y)) -
            karatsuba 0 (Int.fdiv x (splitPower x y)) (Int.fdiv y (splitPower x y)) -
            karatsuba 0 (Int.fmod x (splitPower x y)) (Int.fmod y (splitPower x y))) +
        karatsuba 0 (Int.fmod x (splitPower x y)) (Int.fmod y (splitPower x y)) := by
  rw [karatsuba_unfold, if_neg (Nat.not_lt.mpr h)]

/-- C12: subtraction safety. For all non-negative `x`, `y` reaching the
recursive case, the parts `a`, `b`, `c`, `d` and the three sub-products are
non-negative, the result is assembled from them as in the code,
`karatsuba (a+b, c+d) ≥ ac`, `karatsuba (a+b, c+d) - ac ≥ bd`, and
the final `abcd` is `a*d + b*c`, which is non-negative: both subtractions have a
minuend at least as large as the subtrahend. -/
theorem karatsuba_subtraction_safe (x y : Nat) (h : 2 ≤ splitPoint x y) :
    karatsuba 0 x y =
      10 ^ (2 * splitPoint x y) *
          karatsuba 0 (Int.fdiv x (splitPower x y)) (Int.fdiv y (splitPower x y)) +
        10 ^ splitPoint x y *
          (karatsuba 0 (Int.fdiv x (splitPower x y) + Int.fmod x (splitPower x y))
              (Int.fdiv y (splitPower x y) + Int.fmod y (splitPower x y)) -
            karatsuba 0 (Int.fdiv x (splitPower x y)) (Int.fdiv y (splitPower x y)) -
            karatsuba 0 (Int.fmod x (splitPower x y)) (Int.fmod y (splitPower x y))) +
        karatsuba 0 (Int.fmod x (splitPower x y)) (Int.fmod y (splitPower x y)) ∧
    (0 ≤ Int.fdiv x (splitPower x y) ∧ 0 ≤ Int.fmod x (splitPower x y) ∧
      0 ≤ Int.fdiv y (splitPower x y) ∧ 0 ≤ Int.fmod y (splitPower x y)) ∧
    (0 ≤ karatsuba 0 (Int.fdiv x (splitPower x y)) (Int.fdiv y (splitPower x y)) ∧
      0 ≤ karatsuba 0 (Int.fmod x (splitPower x y)) (Int.fmod y (splitPower x y))) ∧
    karatsuba 0 (Int.fdiv x (splitPower x y)) (Int.fdiv y (splitPower x y)) ≤
      karatsuba 0 (Int.fdiv x (splitPower x y) + Int.fmod x (splitPower x y))
        (Int.fdiv y (splitPower x y) + Int.fmod y (splitPower x y)) ∧
    karatsuba 0 (Int.fmod x (splitPower x y)) (Int.fmod y (splitPower x y)) ≤
      karatsuba 0 (Int.fdiv x (splitPower x y) + Int.fmod x (splitPower x y))
          (Int.fdiv y (splitPower x y) + Int.fmod y (splitPower x y)) -
        karatsuba 0 (Int.fdiv x (splitPower x y)) (Int.fdiv y (splitPower x y)) ∧
    karatsuba 0 (Int.fdiv x (splitPower x y) + Int.fmod x (splitPower x y))
          (Int.fdiv y (splitPower x y) + Int.fmod y (splitPower x y)) -
        karatsuba 0 (Int.fdiv x (splitPower x y)) (Int.fdiv y (splitPower x y)) -
        karatsuba 0 (Int.fmod x (splitPower x y)) (Int.fmod y (splitPower x y)) =
      Int.fdiv x (splitPower x y) * Int.fmod y (splitPower x y) +
        Int.fmod x (splitPower x y) * Int.fdiv y (splitPower x y) ∧
    0 ≤ Int.fdiv x (splitPower x y) * Int.fmod y (splitPower x y) +
        Int.fmod x (splitPower x y) * Int.fdiv y (splitPower x y) := by
  have hp := splitPower_pos x y
  obtain ⟨ha, hb⟩ := parts_nonneg x _ (Int.ofNat_nonneg x) hp
  obtain ⟨hc, hd⟩ := parts_nonneg y _ (Int.ofNat_nonneg y) hp
  have hac := mul_nonneg ha hc
  have hbd := mul_nonneg hb hd
  have had := mul_nonneg ha hd
  have hbc := mul_nonneg hb hc
  refine ⟨karatsuba_recursive 0 x y h, ?_⟩
  rw [karatsuba_zero, karatsuba_zero, karatsuba_zero]
  refine ⟨⟨ha, hb, hc, hd⟩, ⟨hac, hbd⟩, ?_, ?_, by ring, by linarith⟩
  · nlinarith
  · nlinarith

/-- Witness of C12 at `x = 1234`, `y = 5678`: the call recurses and the first
subtraction has `ac` at most `karatsuba (a+b, c+d)`. -/
theorem karatsuba_subtraction_safe_witness :
    2 ≤ splitPoint ((1234 : Nat) : Int) ((5678 : Nat) : Int) ∧
    karatsuba 0 (Int.fdiv ((1234 : Nat) : Int) (splitPower ((1234 : Nat) : Int) ((5678 : Nat) : Int)))
        (Int.fdiv ((5678 : Nat) : Int) (splitPower ((1234 : Nat) : Int) ((5678 : Nat) : Int))) ≤
      karatsuba 0
        (Int.fdiv ((1234 : Nat) : Int) (splitPower ((1234 : Nat) : Int) ((5678 : Nat) : Int)) +
          Int.fmod ((1234 : Nat) : Int) (splitPower ((1234 : Nat) : Int) ((5678 : Nat) : Int)))
        (Int.fdiv ((5678 : Nat) : Int) (splitPower ((1234 : Nat) : Int) ((5678 : Nat) : Int)) +
          Int.fmod ((5678 : Nat) : Int) (splitPower ((1234 : Nat) : Int) ((5678 : Nat) : Int))) :=
  have hn : 2 ≤ splitPoint ((1234 : Nat) : Int) ((5678 : Nat) : Int) :=
    Nat.le_of_not_lt (by rw [splitPoint_lt_two_iff]; decide)
  ⟨hn, (karatsuba_subtraction_safe 1234 5678 hn).2.2.2.1⟩

/-- C16: operand-size bound for the recursive calls. For all non-negative `x`,
`y` reaching the recursive case, where the result is assembled from the calls
on `(a, c)`, `(b, d)` and `(a + b, c + d)`, with `n` the split point, the parts satisfy
`a, b, c, d < 10^n`, so the operands of the calls on `(a, c)` and `(b, d)` have
at most `n` decimal digits, and `a + b < 2 * 10^n`, `c + d < 2 * 10^n`, so the
operands of the call on `(a + b, c + d)` have at most `n + 1` decimal digits. -/
theorem karatsuba_operand_size_bound (x y : Nat) (h : 2 ≤ splitPoint x y) :
    karatsuba 0 x y =
      10 ^ (2 * splitPoint x y) *
          karatsuba 0 (Int.fdiv x (splitPower x y)) (Int.fdiv y (splitPower x y)) +
        10 ^ splitPoint x y *
          (karatsuba 0 (Int.fdiv x (splitPower x y) + Int.fmod x (splitPower x y))
              (Int.fdiv y (splitPower x y) + Int.fmod y (splitPower x y)) -
            karatsuba 0 (Int.fdiv x (splitPower x y)) (Int.fdiv y (splitPower x y)) -
            karatsuba 0 (Int.fmod x (splitPower x y)) (Int.fmod y (splitPower x y))) +
        karatsuba 0 (Int.fmod x (splitPower x y)) (Int.fmod y (splitPower x y)) ∧
    (Int.fdiv x (splitPower x y) < 10 ^ splitPoint x y ∧
      Int.fmod x (splitPower x y) < 10 ^ splitPoint x y ∧
      Int.fdiv y (splitPower x y) < 10 ^ splitPoint x y ∧
      Int.fmod y (splitPower x y) < 10 ^ splitPoint x y) ∧
    (getSize (Int.fdiv x (splitPower x y)) ≤ splitPoint x y ∧
      getSize (Int.fmod x (splitPower x y)) ≤ splitPoint x y ∧
      getSize (Int.fdiv y (splitPower x y)) ≤ splitPoint x y ∧
      getSize (Int.fmod y (splitPower x y)) ≤ splitPoint x y) ∧
    (Int.fdiv x (splitPower x y) + Int.fmod x (splitPower x y) < 2 * 10 ^ splitPoint x y ∧
      Int.fdiv y (splitPower x y) + Int.fmod y (splitPower x y) < 2 * 10 ^ splitPoint x y) ∧
    (getSize (Int.fdiv x (splitPower x y) + Int.fmod x (splitPower x y)) ≤
        splitPoint x y + 1 ∧
      getSize (Int.fdiv y (splitPower x y) + Int.fmod y (splitPower x y)) ≤
        splitPoint x y + 1) := by
  have hlt := parts_lt x y
  have hsum := sum_parts_lt x y
  refine ⟨karatsuba_recursive 0 x y h, hlt, ⟨?_, ?_, ?_, ?_⟩, ⟨by omega, by omega⟩, ?_, ?_⟩
  · exact getSize_le_of_lt_pow _ _ hlt.1
  · exact getSize_le_of_lt_pow _ _ hlt.2.1
  · exact getSize_le_of_lt_pow _ _ hlt.2.2.1
  · exact getSize_le_of_lt_pow _ _ hlt.2.2.2
  · exact getSize_le_of_lt_pow _ _ hsum.1
  · exact getSize_le_of_lt_pow _ _ hsum.2

/-- Witness of C16 at `x = 999`, `y = 999`: the call recurses and the high part
of `x` is below `10^n`. -/
theorem karatsuba_operand_size_bound_witness :
    2 ≤ splitPoint ((999 : Nat) : Int) ((999 : Nat) : Int) ∧
    Int.fdiv ((999 : Nat) : Int) (splitPower ((999 : Nat) : Int) ((999 : Nat) : Int)) <
      10 ^ splitPoint ((999 : Nat) : Int) ((999 : Nat) : Int) :=
  have hn : 2 ≤ splitPoint ((999 : Nat) : Int) ((999 : Nat) : Int) :=
    Nat.le_of_not_lt (by rw [splitPoint_lt_two_iff]; decide)
  ⟨hn, (karatsuba_operand_size_bound 999 999 hn).2.1.1⟩


/-! ## The recombination -/

/-- The last part of `karatsuba`, after the three recursive calls: the two
subtractions from `abcd` and the sum `ac * 10^(2n) + abcd * 10^n + bd`. The
arguments are the values `ac`, `bd` and `abcd` hold after the calls. -/
def combine (n : Nat) (ac bd abcd : Int) : Int :=
  let abcd := abcd - ac
  let abcd := abcd - bd
  let term1 : Int := 10 ^ (2 * n)
  let term3 := term1 * ac
  let term2 : Int := 10 ^ n
  let term4 := term2 * abcd
  let sum := term3 + term4
  sum + bd

theorem karatsuba_eq_combine (result x y : Int) (h : 2 ≤ splitPoint x y) :
    karatsuba result x y =
      combine (splitPoint x y)
        (karatsuba 0 (Int.fdiv x (splitPower x y)) (Int.fdiv y (splitPower x y)))
        (karatsuba 0 (Int.fmod x (splitPower x y)) (Int.fmod y (splitPower x y)))
        (karatsuba 0 (Int.fdiv x (splitPower x y) + Int.fmod x (splitPower x y))
          (Int.fdiv y (splitPower x y) + Int.fmod y (splitPower x y))) := by
  rw [karatsuba_recursive result x y h]
  rfl

/-- C13: the recombination identity. For all natural numbers `a`, `b`, `c`,
`d`, `n`, the value assembled from the exact products `a*c`, `b*d` and
`(a+b)*(c+d)` is `(a*c)*10^(2n) + ((a+b)*(c+d) - a*c - b*d)*10^n + b*d` and
equals `x * y` for `x = a*10^n + b`, `y = c*10^n + d`; and in the recursive case
`karatsuba` assembles its result in this way from its three recursive calls. -/
theorem recombination_identity (a b c d n : Nat) :
    combine n ((a : Int) * c) ((b : Int) * d) (((a : Int) + b) * ((c : Int) + d)) =
      ((a : Int) * c) * 10 ^ (2 * n) +
        (((a : Int) + b) * ((c : Int) + d) - (a : Int) * c - (b : Int) * d) * 10 ^ n +
        (b : Int) * d ∧
    ((a : Int) * c) * 10 ^ (2 * n) +
        (((a : Int) + b) * ((c : Int) + d) - (a : Int) * c - (b : Int) * d) * 10 ^ n +
        (b : Int) * d =
      ((a : Int) * 10 ^ n + b) * ((c : Int) * 10 ^ n + d) ∧
    (∀ result x y : Int, 2 ≤ splitPoint x y →
      karatsuba result x y =
        combine (splitPoint x y)
          (karatsuba 0 (Int.fdiv x (splitPower x y)) (Int.fdiv y (splitPower x y)))
          (karatsuba 0 (Int.fmod x (splitPower x y)) (Int.fmod y (splitPower x y)))
          (karatsuba 0 (Int.fdiv x (splitPower x y) + Int.fmod x (splitPower x y))
            (Int.fdiv y (splitPower x y) + Int.fmod y (splitPower x y)))) := by
  refine ⟨?_, by ring, karatsuba_eq_combine⟩
  unfold combine
  ring

/-! ## The iterations of the digit counter -/

theorem tdiv_ten_of_pos (v : Int) (h : 0 < v) :
    Int.tdiv v 10 = v / 10 ∧ 0 ≤ Int.tdiv v 10 ∧ Int.tdiv v 10 < v := by
  have h1 : Int.tdiv v 10 = v / 10 := Int.tdiv_eq_ediv (le_of_lt h) (by decide)
  rw [h1]
  refine ⟨rfl, ?_, ?_⟩ <;> omega

theorem getSize_iterate (k : Nat) : ∀ v : Int, getSize v = k →
    (fun q : Int => Int.tdiv q 10)^[k] v ≤ 0 ∧
      ∀ j : Nat, j < k → 0 < (fun q : Int => Int.tdiv q 10)^[j] v := by
  induction k with
  | zero =>
    intro v hv
    refine ⟨?_, fun j hj => absurd hj (Nat.not_lt_zero j)⟩
    by_contra hc
    exact getSize_ne_zero v (not_le.mp hc) hv
  | succ k ih =>
    intro v hv
    have hpos : 0 < v := by
      by_contra hc
      rw [getSize_nonpos v (not_lt.mp hc)] at hv
      omega
    have ht := tdiv_ten_of_pos v hpos
    have hk : getSize (Int.tdiv v 10) = k := by
      have := getSize_pos v hpos
      rw [ht.1]
      omega
    obtain ⟨h1, h2⟩ := ih _ hk
    refine ⟨by rw [Function.iterate_succ_apply]; exact h1, fun j hj => ?_⟩
    rcases j with _ | j
    · exact hpos
    · rw [Function.iterate_succ_apply]
      exact h2 j (by omega)

/-- C14: the loop step of `getSize`. For every integer `v > 0` the truncated
quotient satisfies `0 ≤ v div 10 < v` and `getSize v = 1 + getSize (v div 10)`;
the count returned is the number of divisions by 10 performed until the running
quotient is no longer positive: the quotient is positive before each of the
`getSize v` divisions and not positive after the last. -/
theorem getSize_loop_step (v : Int) (h : 0 < v) :
    0 ≤ Int.tdiv v 10 ∧ Int.tdiv v 10 < v ∧
    getSize v = 1 + getSize (Int.tdiv v 10) ∧
    (fun q : Int => Int.tdiv q 10)^[getSize v] v ≤ 0 ∧
    ∀ j : Nat, j < getSize v → 0 < (fun q : Int => Int.tdiv q 10)^[j] v := by
  have ht := tdiv_ten_of_pos v h
  refine ⟨ht.2.1, ht.2.2, ?_, getSize_iterate _ v rfl⟩
  rw [ht.1, getSize_pos v h, Nat.add_comm]

/-- Witness of C14 at `v = 1234`. -/
theorem getSize_loop_step_witness :
    (0 : Int) < 1234 ∧ getSize 1234 = 1 + getSize (Int.tdiv 1234 10) :=
  ⟨by decide, (getSize_loop_step 1234 (by decide)).2.2.1⟩


/-- C17: the effect of the value `result` holds on entry. For all non-negative
`x`, `y` and every integer `r0`, `karatsuba` leaves `r0 + x*y` in `result` in the
base case (`max x y < 100`) and `x*y`, whatever `r0`, in the recursive case
(`max x y ≥ 100`); `result` holds the product for every input exactly when it is
0 on entry. -/
theorem karatsuba_prior_result (x y : Nat) (r0 : Int) :
    (max x y < 100 → splitPoint x y < 2 ∧ karatsuba r0 x y = r0 + x * y) ∧
    (100 ≤ max x y → ¬ splitPoint x y < 2 ∧ karatsuba r0 x y = x * y) ∧
    ((∀ u v : Nat, karatsuba r0 u v = u * v) ↔ r0 = 0) := by
  have hfloor : splitPoint x y < 2 ↔ max x y < 100 := by
    rw [splitPoint_lt_two_iff, max_lt_iff]
    constructor
    · rintro ⟨h1, h2⟩
      exact ⟨by exact_mod_cast h1, by exact_mod_cast h2⟩
    · rintro ⟨h1, h2⟩
      exact ⟨by exact_mod_cast h1, by exact_mod_cast h2⟩
  refine ⟨fun h => ?_, fun h => ?_, ?_, ?_⟩
  · have hn := hfloor.mpr h
    exact ⟨hn, by rw [karatsuba_value, if_pos hn]⟩
  · have hn : ¬ splitPoint x y < 2 := fun hc => absurd (hfloor.mp hc) (not_lt.mpr h)
    exact ⟨hn, by rw [karatsuba_value, if_neg hn]⟩
  · intro hall
    have h0 := hall 0 0
    have hn : splitPoint ((0 : Nat) : Int) ((0 : Nat) : Int) < 2 := by
      rw [splitPoint_lt_two_iff]
      decide
    rw [karatsuba_value, if_pos hn] at h0
    simpa using h0
  · intro hr u v
    rw [hr]
    exact karatsuba_zero u v

/-- C18: signed inputs. With `mpz_t` an unbounded signed integer, `getSize v` is
0 for every `v ≤ 0`; the split is by floor division, so that
`x = a * 10^n + b` with `0 ≤ b < 10^n` also for negative `x`, and likewise
for `y` (the parts of `-1`
at `10^2` are `-1` and `99`); and for all integers `x`, `y`, negative ones
included, the three recursive calls are on operands of smaller weight and
`karatsuba` with `result` initially 0 returns exactly `x * y`. -/
theorem karatsuba_signed (x y : Int) :
    (x ≤ 0 → getSize x = 0) ∧
    (Int.fdiv x (splitPower x y) = ⌊(x : ℚ) / ((10 : ℚ) ^ splitPoint x y)⌋ ∧
      x = Int.fdiv x (splitPower x y) * 10 ^ splitPoint x y + Int.fmod x (splitPower x y) ∧
      0 ≤ Int.fmod x (splitPower x y) ∧ Int.fmod x (splitPower x y) < 10 ^ splitPoint x y) ∧
    (y = Int.fdiv y (splitPower x y) * 10 ^ splitPoint x y + Int.fmod y (splitPower x y) ∧
      0 ≤ Int.fmod y (splitPower x y) ∧ Int.fmod y (splitPower x y) < 10 ^ splitPoint x y) ∧
    (Int.fdiv (-1) 100 = -1 ∧ Int.fmod (-1) 100 = 99) ∧
    (¬ splitPoint x y < 2 →
      operandWeight (Int.fdiv x (splitPower x y)) (Int.fdiv y (splitPower x y)) <
          operandWeight x y ∧
        operandWeight (Int.fmod x (splitPower x y)) (Int.fmod y (splitPower x y)) <
          operandWeight x y ∧
        operandWeight (Int.fdiv x (splitPower x y) + Int.fmod x (splitPower x y))
            (Int.fdiv y (splitPower x y) + Int.fmod y (splitPower x y)) <
          operandWeight x y) ∧
    karatsuba 0 x y = x * y ∧
    karatsuba 0 (-1234) 5678 = -7006652 ∧ karatsuba 0 (-1234) (-5678) = 7006652 := by
  have hp := splitPower_pos x y
  have hpow : splitPower x y = 10 ^ splitPoint x y := rfl
  have hy0 : 0 ≤ Int.fmod y (splitPower x y) := by
    rw [(fdiv_fmod_pos y _ hp).2]
    exact Int.emod_nonneg y (ne_of_gt hp)
  have hysplit :
      y = Int.fdiv y (splitPower x y) * 10 ^ splitPoint x y + Int.fmod y (splitPower x y) := by
    rw [← hpow]
    exact (fdiv_add_fmod y _ hp).symm
  refine ⟨getSize_nonpos x, ⟨?_, ?_, ?_, (parts_lt x y).2.1⟩,
    ⟨hysplit, hy0, (parts_lt x y).2.2.2⟩, ⟨by decide, by decide⟩,
    fun hn => ?_, karatsuba_zero x y, ?_, ?_⟩
  · rw [(fdiv_fmod_pos x _ hp).1, hpow]
    have hcast : ((10 : ℚ) ^ splitPoint x y) = (((10 ^ splitPoint x y : Nat) : ℚ)) := by
      push_cast
      rfl
    have hcastz : ((10 : Int) ^ splitPoint x y) = (((10 ^ splitPoint x y : Nat) : Int)) := by
      push_cast
      rfl
    rw [hcast, hcastz, Rat.floor_intCast_div_natCast]
  · rw [← hpow]
    exact (fdiv_add_fmod x _ hp).symm
  · rw [(fdiv_fmod_pos x _ hp).2]
    exact Int.emod_nonneg x (ne_of_gt hp)
  · have hf := splitPower_facts x y (Nat.le_of_not_lt hn)
    rw [(fdiv_fmod_pos x _ hp).1, (fdiv_fmod_pos x _ hp).2, (fdiv_fmod_pos y _ hp).1,
      (fdiv_fmod_pos y _ hp).2]
    exact ⟨operandWeight_high _ _ _ hf.1 hf.2, operandWeight_low _ _ _ hf.1 hf.2,
      operandWeight_sum _ _ _ hf.1 hf.2⟩
  · rw [karatsuba_zero]
    rfl
  · rw [karatsuba_zero]
    rfl

end Karatsuba
